import Mathlib

/-!
# Verification of the gulp-begin task-graph and configuration engine

Shallow embedding of `src/gulp-begin.js` (and of the older duplicated
revision `src/unnamed/part_000`): configuration resolution via lodash's
`_.defaultsDeep`, path building, task registration with the
exclusion filter, the dev-loop supervisor's watch bindings and reload
callbacks, and the html pipeline, together with proofs about them.
-/

/-- A JavaScript value, as needed to model the option trees that
`gulp-begin` manipulates: `undefined`, `null`, booleans, numbers
(modelled as integers: every number in scope is integral), strings,
arrays and plain objects (ordered field lists, as JS property order is
observable through lodash iteration). -/
inductive JsValue where
  | undefined : JsValue
  | null : JsValue
  | bool (b : Bool) : JsValue
  | num (n : Int) : JsValue
  | str (s : String) : JsValue
  | arr (elems : List JsValue) : JsValue
  | obj (fields : List (String × JsValue)) : JsValue

/-- lodash `isObject`: arrays and plain objects are object-like (functions
are not modelled); primitives, `null` and `undefined` are not. -/
def JsValue.isObjectLike : JsValue → Bool
  | .arr _ => true
  | .obj _ => true
  | _ => false

/-- Property lookup in an object's field list; an absent key reads as
`undefined`, exactly as in JS (explicit-`undefined` fields and absent
fields are conflated, which is faithful for every read the code performs). -/
def lookupF : List (String × JsValue) → String → JsValue
  | [], _ => .undefined
  | (k, v) :: rest, key => if k = key then v else lookupF rest key

mutual
/-- lodash `_.defaultsDeep(u, d)` as a value-level function (the source
calls it at `gulp-begin.js:156`).  Semantics of lodash 4's
`customDefaultsMerge`: an `undefined` user value is replaced by the
default; when both sides are object-like the merge recurses (arrays are
object-like, hence merged index-wise); otherwise the user value wins.
The array/object mixed case (where lodash would graft source keys onto
the other shape, unrepresentable here) keeps the user value; no value in
this repository's option trees hits that case. -/
def mergeV : JsValue → JsValue → JsValue
  | .undefined, d => d
  | .arr xs, .arr ds => .arr (mergeL xs ds)
  | .obj fs, .obj ds =>
      .obj (mergeEntries fs ds ++
        ds.filter (fun kv => !(fs.any (fun f => f.1 == kv.1))))
  | u, _ => u

/-- Index-wise merge of a user array over a default array: defaults fill
`undefined` or missing user indices, extra default elements are appended. -/
def mergeL : List JsValue → List JsValue → List JsValue
  | [], ds => ds
  | x :: xs, [] => x :: xs
  | x :: xs, d :: ds => mergeV x d :: mergeL xs ds

/-- Per-key merge of the user object's own entries against the defaults. -/
def mergeEntries :
    List (String × JsValue) → List (String × JsValue) →
    List (String × JsValue)
  | [], _ => []
  | (k, v) :: rest, ds => (k, mergeV v (lookupF ds k)) :: mergeEntries rest ds
end

/-- At its top level lodash's assigner converts a primitive first argument
with `Object(...)` into a (propertyless) wrapper object, so a
non-structured `options` value behaves as an empty object.  (The index
properties of a `String` wrapper are not modelled; no claim reads them.) -/
def toObjectLike (v : JsValue) : JsValue :=
  if v.isObjectLike then v else .obj []

/-- Two-segment lodash `_.get(v, "a.b")`, reading `undefined` through any
non-object: used to model `_.get(options, 'server.cwd', 'src/server')`. -/
def get2 (v : JsValue) (k1 k2 : String) : JsValue :=
  match v with
  | .obj fs =>
      match lookupF fs k1 with
      | .obj gs => lookupF gs k2
      | _ => .undefined
  | _ => .undefined

/-- Node `path.join` on two segments.  Empty segments are dropped and a
single separator is inserted; normalization of `.`/`..` segments and of
repeated separators inside a segment is not modelled (no path in this
repository's defaults contains them). -/
def pathJoin (a b : String) : String :=
  if a = "" then b else if b = "" then a else a ++ "/" ++ b

/-- The effective `server.cwd` used while building the defaults literal:
`_.get(options, 'server.cwd', 'src/server')` evaluated against the
caller's (unresolved) options — the lodash default fires exactly when the
path resolves to `undefined` (`gulp-begin.js:163`). -/
def cwdOfUser (u : JsValue) : JsValue :=
  match get2 u "server" "cwd" with
  | .undefined => .str "src/server"
  | v => v

/-- The defaults literal of `gulp-begin.js:156-205`, parametrised by the
already-computed `server.cwd` join argument, by `process.env.PORT`
(a string when set) and by `process.cwd()`. -/
def defaultsFor (serverCwd : String) (envPort : Option String)
    (procCwd : String) : JsValue :=
  .obj [
    ("root", .str procCwd),
    ("port", match envPort with | some p => .str p | none => .undefined),
    ("server", .obj [
      ("cwd", .str "src/server"),
      ("main", .str "index.js"),
      ("watch", .arr [.str (pathJoin serverCwd "**/*.js"), .str "*.js"])]),
    ("client", .obj [
      ("lib", .str "bower_components"),
      ("cwd", .str "src/client"),
      ("dest", .str "public"),
      ("html", .obj [("src", .arr [.str "*.html"])]),
      ("scripts", .obj [
        ("cwd", .str "scripts"),
        ("dest", .str "app.min.js"),
        ("lib", .arr []),
        ("src", .arr [.str "*.js", .str "*/**/*.js"])]),
      ("styles", .obj [
        ("cwd", .str "styles"),
        ("dest", .str "app.min.css"),
        ("include", .obj [
          ("lib", .arr []),
          ("src", .arr [.str "styles"])]),
        ("src", .arr [.str "styles.scss"])]),
      ("templates", .obj [
        ("cwd", .str "views"),
        ("src", .arr [.str "**/*.html"])]),
      ("images", .obj [
        ("cwd", .str "images"),
        ("src", .arr [.str "**/*.png"])])]),
    ("test", .obj [
      ("main", .str "spec.js"),
      ("watch", .arr [.str "test/**/*.js"])])]

/-- `options = _.defaultsDeep(options, {...})` (`gulp-begin.js:156`).
The defaults literal is evaluated first; inside it,
`path.join(_.get(options, 'server.cwd', 'src/server'), '**/*.js')` throws
a `TypeError` when the effective `server.cwd` is not a string, which is
the only way configuration resolution can raise. -/
def resolveOptions (envPort : Option String) (procCwd : String)
    (u : JsValue) : Except String JsValue :=
  match cwdOfUser u with
  | .str s => .ok (mergeV (toObjectLike u) (defaultsFor s envPort procCwd))
  | _ => .error "path.join: Path must be a string"

/-- The value held by the caller's `options` object after `begin` has
resolved the configuration.  lodash documents that `_.defaultsDeep`
"mutates object": it writes the defaults into its first argument and
returns that same object, so an object-like argument ends up holding the
resolved configuration.  A primitive argument is copied (its wrapper is
mutated instead) and an exception thrown while evaluating the defaults
literal happens before the merge, leaving the argument untouched. -/
def callerObjectAfter (envPort : Option String) (procCwd : String)
    (u : JsValue) : JsValue :=
  match resolveOptions envPort procCwd u with
  | .ok y => if u.isObjectLike then y else u
  | .error _ => u

/-- Keys of an object's field list are pairwise distinct. -/
def keysNodup : List (String × JsValue) → Bool
  | [] => true
  | (k, _) :: rest => !(rest.any (fun f => f.1 == k)) && keysNodup rest

mutual
/-- Every object reachable inside the value has pairwise-distinct keys
(true of every JS-originated value; field lists here are unrestricted). -/
def nodupV : JsValue → Bool
  | .arr xs => nodupL xs
  | .obj fs => keysNodup fs && nodupF fs
  | _ => true
def nodupL : List JsValue → Bool
  | [] => true
  | x :: xs => nodupV x && nodupL xs
def nodupF : List (String × JsValue) → Bool
  | [] => true
  | (_, v) :: rest => nodupV v && nodupF rest
end

/-- lodash `_.get` along a list of keys (alphabetic keys only, as used by
the configuration paths; reading through a non-object gives `undefined`). -/
def getP : JsValue → List String → JsValue
  | v, [] => v
  | v, k :: p =>
    match v with
    | .obj fs => getP (lookupF fs k) p
    | _ => .undefined

/-- The value is an object (or absent) at every proper position along the
path — the shape under which deep-merging is guaranteed to keep walking. -/
def objAlong : JsValue → List String → Bool
  | _, [] => true
  | v, k :: p =>
    match v with
    | .undefined => true
    | .obj fs => objAlong (lookupF fs k) p
    | _ => false

/-- View a value as an array of strings (used to observe resolved
pattern lists in a decidable type). -/
def asStrList (v : JsValue) : Option (List String) :=
  match v with
  | .arr xs => xs.mapM (fun x => match x with | .str s => some s | _ => none)
  | _ => none

/-- Number of fields at the root of a value (observable through
`Object.keys(options).length`; distinguishes `{}` from the resolved
configuration). -/
def countRootFields : JsValue → Nat
  | .obj fs => fs.length
  | _ => 0

/-- `var name = task => options.prefix ? prefix + '_' + task : task`
(`gulp-begin.js:248`).  JS string truthiness: the empty string is falsy,
so an empty prefix behaves like no prefix at all. -/
def qualify (pfx : Option String) (t : String) : String :=
  match pfx with
  | some p => if p = "" then t else p ++ "_" ++ t
  | none => t

/-- The registration-relevant fields of the resolved options.  `exclude`
and `only` are arrays or absent (a JS array is truthy even when empty,
`undefined` is falsy, which is what the source's `if (options.exclude)`
and `else if (options.only)` test); `warnExclusions` is read for
truthiness only. -/
structure BeginOptions where
  pfx : Option String
  exclude : Option (List String)
  only : Option (List String)
  warnExclusions : Bool

/-- Identifies a task body function of `gulp-begin.js` without
re-implementing its pipeline (the bodies claims reason about are
modelled separately). -/
inductive BodyId where
  | html | jshint | scripts | styles | images | server | dev
  | test | autotest | docs | changelog
deriving DecidableEq

/-- One element of a `defaultTasks` entry's value array: either a
dependency-name list or a body function. -/
inductive TaskArg where
  | deps (names : List String)
  | body (b : BodyId)
deriving DecidableEq

/-- The `defaultTasks` map (`gulp-begin.js:376-497`): keys are built with
`name(...)` (hence already carry the prefix), values are the argument
arrays, in source order. -/
def defaultTasksList (pfx : Option String) : List (String × List TaskArg) :=
  [ (qualify pfx "html", [.body .html]),
    (qualify pfx "jshint", [.body .jshint]),
    (qualify pfx "scripts", [.deps [qualify pfx "jshint"], .body .scripts]),
    (qualify pfx "styles", [.body .styles]),
    (qualify pfx "images", [.body .images]),
    (qualify pfx "build", [.deps [qualify pfx "html", qualify pfx "styles",
      qualify pfx "scripts", qualify pfx "images"]]),
    (qualify pfx "server", [.deps [qualify pfx "build"], .body .server]),
    (qualify pfx "demon", [.body .server]),
    (qualify pfx "dev", [.body .dev]),
    (qualify pfx "test", [.deps [qualify pfx "jshint"], .body .test]),
    (qualify pfx "autotest", [.body .autotest]),
    (qualify pfx "docs", [.body .docs]),
    (qualify pfx "changelog", [.body .changelog]) ]

/-- The exclusion set (`gulp-begin.js:499-509`): the `exclude` array when
present (a JS array is truthy even when empty), else
`_.difference(_.keys(defaultTasks), _.map(options.only, name))` when
`only` is present, else empty.  `_.difference` keeps the first list's
order and drops elements present in the second. -/
def excludedTasks (o : BeginOptions) : List String :=
  match o.exclude with
  | some e => e
  | none =>
    match o.only with
    | some onl =>
        ((defaultTasksList o.pfx).map Prod.fst).filter
          (fun n => !((onl.map (qualify o.pfx)).contains n))
    | none => []

/-- What got installed under a task name: the real argument (dependency
list or body), or the warning stub closing over the task's name. -/
inductive Registered where
  | real (arg : TaskArg)
  | stub (taskName : String)
deriving DecidableEq

/-- The warning the stub prints (`gulp-begin.js:518`), typo included. -/
def stubWarning (n : String) : String :=
  "Task <" ++ n ++ "> has been explicity excluded!"

/-- Invoking the stub: one `console.warn` naming the task, nothing else —
it returns normally and never reaches a real body.  Modelled in `Except`
to state throw-freedom. -/
def invokeStub (taskName : String) : Except String (List String) :=
  .ok [stubWarning taskName]

/-- The `task` helper (`gulp-begin.js:511-524`): a name is excluded when
the exclusion set contains it as passed (the `defaultTasks` keys are
already prefixed) or contains its image under a further `name(...)`
application; an excluded name gets the warning stub only when
`warnExclusions` is truthy — otherwise nothing is registered for it. -/
def taskHelper (o : BeginOptions) (taskName : String) (callback : TaskArg) :
    List (String × Registered) :=
  let isExcluded := (excludedTasks o).contains taskName ||
    (excludedTasks o).contains (qualify o.pfx taskName)
  if isExcluded then
    if o.warnExclusions then [(taskName, .stub taskName)] else []
  else [(taskName, .real callback)]

/-- The registration loop (`gulp-begin.js:527-531`):
`task.apply(null, [name].concat(args))` — `task` declares two parameters,
so only the FIRST element of the argument array reaches `gulp.task`; for
entries shaped `[deps, fn]` the body function is silently dropped. -/
def registerAll (o : BeginOptions) : List (String × Registered) :=
  (defaultTasksList o.pfx).flatMap (fun nt =>
    match nt.2 with
    | a :: _ => taskHelper o nt.1 a
    | [] => [])

/-- The names that end up registered with the scheduler. -/
def registeredNames (o : BeginOptions) : List String :=
  (registerAll o).map Prod.fst

/-- `gulp.watch(_.flatten([options.server.watch, options.test.watch]),
['test'])` inside the autotest body (`gulp-begin.js:481`): the triggered
task list is the unprefixed literal `['test']`. -/
def autotestWatchTriggers : List String := ["test"]

/-- Lookup in an association list of registrations. -/
def lookupReg : List (String × Registered) → String → Option Registered
  | [], _ => none
  | (k, v) :: rest, key => if k = key then some v else lookupReg rest key

/-- Split a character list at a separator character. -/
def splitChars (sep : Char) : List Char → List (List Char)
  | [] => [[]]
  | c :: cs =>
    let rest := splitChars sep cs
    if c = sep then [] :: rest
    else
      match rest with
      | r :: rs => (c :: r) :: rs
      | [] => [[c]]

/-- Path segments of a pattern or path (split at `/`). -/
def splitSegs (s : String) : List String :=
  (splitChars '/' s.data).map (fun l => String.mk l)

/-- Does the first character list begin the second? -/
def charsLead : List Char → List Char → Bool
  | [], _ => true
  | _ :: _, [] => false
  | p :: ps, s :: ss => p = s && charsLead ps ss

/-- Does the second character list contain the first as a contiguous run? -/
def charsWithin : List Char → List Char → Bool
  | sub, [] => charsLead sub []
  | sub, s :: ss => charsLead sub (s :: ss) || charsWithin sub ss

/-- `s.indexOf(sub) !== -1` of JS. -/
def strHasSub (s sub : String) : Bool := charsWithin sub.data s.data

/-- Match one glob path segment.  The repository's patterns use at most
one `*` per segment (`*.html`, `*.js`, `*.png`, literals); a segment that
is exactly `*` splits into two empty chunks and matches anything. -/
def segMatch (pat s : String) : Bool :=
  match splitChars '*' pat.data with
  | [lit] => lit = s.data
  | [pre, suf] =>
      charsLead pre s.data && charsLead suf.reverse s.data.reverse &&
        decide (pre.length + suf.length ≤ s.data.length)
  | _ => false

/-- All suffixes of a segment list, longest first. -/
def suffixes : List String → List (List String)
  | [] => [[]]
  | s :: ss => (s :: ss) :: suffixes ss

/-- Match glob segments against path segments; `**` spans any number of
path segments (tried as every suffix of the remaining path). -/
def segsMatch : List String → List String → Bool
  | [], ss => decide (ss = [])
  | p :: ps, ss =>
    if p = "**" then (suffixes ss).any (fun t => segsMatch ps t)
    else
      match ss with
      | [] => false
      | s :: ss2 => segMatch p s && segsMatch ps ss2

/-- Glob match of one pattern against a concrete path. -/
def globMatch (pat path : String) : Bool :=
  segsMatch (splitSegs pat) (splitSegs path)

/-- JS member access `a[key]` on an array value with a string key: only a
run of decimal digits can denote an index; any other key (for instance a
task name such as `styles`) reads `undefined`. -/
def digitValue (c : Char) : Option Nat :=
  if c = '0' then some 0 else if c = '1' then some 1
  else if c = '2' then some 2 else if c = '3' then some 3
  else if c = '4' then some 4 else if c = '5' then some 5
  else if c = '6' then some 6 else if c = '7' then some 7
  else if c = '8' then some 8 else if c = '9' then some 9 else none

/-- Parse a key that is entirely decimal digits. -/
def parseIndexChars : List Char → Nat → Option Nat
  | [], acc => some acc
  | c :: cs, acc =>
    match digitValue c with
    | some d => parseIndexChars cs (acc * 10 + d)
    | none => none

/-- Array member access with a string key, as JS sees it. -/
def jsIndexAccess (xs : List JsValue) (key : String) : JsValue :=
  match key.data with
  | [] => .undefined
  | cs =>
    match parseIndexChars cs 0 with
    | some i => xs.getD i .undefined
    | none => .undefined

/-- The resolved `client` subtree fields the path builder and the task
bodies read (values mirror the shape of the resolved configuration; the
defaults instance below matches `defaultsFor`). -/
structure ClientConfig where
  lib : String
  cwd : String
  dest : String
  htmlSrc : List String
  scriptsCwd : String
  scriptsDest : String
  scriptsLib : List String
  scriptsSrc : List String
  stylesCwd : String
  stylesDest : String
  stylesIncludeLib : List String
  stylesIncludeSrc : List String
  stylesSrc : List String
  templatesCwd : String
  templatesSrc : List String
  imagesCwd : String
  imagesSrc : List String

/-- Left fold of `path.join` over several segments
(`path.join.apply(path, arr.concat([file]))`). -/
def joinAll : List String → String
  | [] => ""
  | a :: rest => rest.foldl pathJoin a

/-- `buildFiles(scope, 'src')` (`gulp-begin.js:207-222`): the prefix
segments are `client.cwd` and the scope's `cwd`, each included only when
truthy (non-empty); a scope without a `cwd` (html) passes the empty
string. -/
def buildFilesSrc (c : ClientConfig) (scopeCwd : String)
    (pats : List String) : List String :=
  let arr := (if c.cwd ≠ "" then [c.cwd] else []) ++
    (if scopeCwd ≠ "" then [scopeCwd] else [])
  pats.map (fun f => joinAll (arr ++ [f]))

/-- `buildFiles(scope, 'lib')`: the only prefix segment is `client.lib`. -/
def buildFilesLib (c : ClientConfig) (pats : List String) : List String :=
  pats.map (fun f => joinAll [c.lib, f])

/-- The `files` snapshot (`gulp-begin.js:225-246`). -/
structure Files where
  srcHtml : List String
  srcTemplates : List String
  srcScripts : List String
  srcStylesMain : List String
  srcStylesInclude : List String
  srcImages : List String
  libScripts : List String
  libStylesInclude : List String

/-- Build the `files` snapshot from the resolved client configuration:
style include sources join directly under `client.cwd`, style include
libs directly under `client.lib`. -/
def buildFiles (c : ClientConfig) : Files where
  srcHtml := buildFilesSrc c "" c.htmlSrc
  srcTemplates := buildFilesSrc c c.templatesCwd c.templatesSrc
  srcScripts := buildFilesSrc c c.scriptsCwd c.scriptsSrc
  srcStylesMain := buildFilesSrc c c.stylesCwd c.stylesSrc
  srcStylesInclude := c.stylesIncludeSrc.map (fun f => pathJoin c.cwd f)
  srcImages := buildFilesSrc c c.imagesCwd c.imagesSrc
  libScripts := buildFilesLib c c.scriptsLib
  libStylesInclude := c.stylesIncludeLib.map (fun f => pathJoin c.lib f)

/-- The default client configuration, mirroring `defaultsFor`. -/
def defaultClientConfig : ClientConfig where
  lib := "bower_components"
  cwd := "src/client"
  dest := "public"
  htmlSrc := ["*.html"]
  scriptsCwd := "scripts"
  scriptsDest := "app.min.js"
  scriptsLib := []
  scriptsSrc := ["*.js", "*/**/*.js"]
  stylesCwd := "styles"
  stylesDest := "app.min.css"
  stylesIncludeLib := []
  stylesIncludeSrc := ["styles"]
  stylesSrc := ["styles.scss"]
  templatesCwd := "views"
  templatesSrc := ["**/*.html"]
  imagesCwd := "images"
  imagesSrc := ["**/*.png"]

/-- The configuration fields the dev-loop supervisor body reads. -/
structure ServerConfig where
  client : ClientConfig
  serverMain : String
  serverWatch : List String
  port : JsValue

/-- The default server configuration (no user options, `PORT` unset). -/
def defaultServerConfig : ServerConfig where
  client := defaultClientConfig
  serverMain := "index.js"
  serverWatch := [pathJoin "src/server" "**/*.js", "*.js"]
  port := .undefined

/-- The callbacks the supervisor wires to watches. -/
inductive WatchCallbackId where
  | gulpfileReload
  | packageJsonReinstall
  | bowerJsonReinstall
  | livereloadNotify
deriving DecidableEq

/-- One observable effect of running the `server` function
(`gulp-begin.js:257-329`), in execution order. -/
inductive ServerEffect where
  | watchTasks (glob : JsValue) (tasks : List String)
  | watchCallback (glob : String) (cb : WatchCallbackId)
  | nodemonStart (script : String) (watchPats : List String)
  | logStarted (port : JsValue)
  | livereloadListen (port : Nat)

/-- Lift a string list to a JS array value. -/
def strArr (l : List String) : JsValue := .arr (l.map .str)

/-- The effect trace of the `server` body (`gulp-begin.js:257-329`).
The third watch call carries the source's missing comma: the code reads
`gulp.watch(_.flatten([...])[name('styles')])` — the flattened array is
member-accessed with the task-name string (which yields `undefined`) and
NO task list is passed, instead of
`gulp.watch(_.flatten([...]), [name('styles')])`.
The live-reload listener port is the literal `35729`
(`gulp-begin.js:318`), independent of `options.port`. -/
def serverBody (pfx : Option String) (cfg : ServerConfig) :
    List ServerEffect :=
  let files := buildFiles cfg.client
  [ .watchTasks (strArr files.srcHtml) [qualify pfx "html"],
    .watchTasks
      (strArr (files.srcScripts ++ files.srcTemplates ++ files.libScripts))
      [qualify pfx "scripts"],
    .watchTasks
      (jsIndexAccess
        ((files.srcStylesMain ++ files.srcStylesInclude ++
          files.libStylesInclude).map .str)
        (qualify pfx "styles"))
      [],
    .watchTasks (strArr files.srcImages) [qualify pfx "images"],
    .watchCallback "gulpfile.js" .gulpfileReload,
    .watchCallback "package.json" .packageJsonReinstall,
    .watchCallback "bower.json" .bowerJsonReinstall,
    .nodemonStart cfg.serverMain cfg.serverWatch,
    .logStarted cfg.port,
    .livereloadListen 35729,
    .watchCallback (pathJoin cfg.client.dest "**/*") .livereloadNotify ]

/-- Does a watch glob value (string or array of strings; `undefined`
watches nothing) match a changed path? -/
def globValueMatches (g : JsValue) (path : String) : Bool :=
  match g with
  | .str p => globMatch p path
  | .arr xs =>
    xs.any (fun v =>
      match v with
      | .str p => globMatch p path
      | _ => false)
  | _ => false

/-- The pipeline-task names a file-change event at `eventPath` triggers
while the supervisor is watching. -/
def triggeredTasks (pfx : Option String) (cfg : ServerConfig)
    (eventPath : String) : List String :=
  (serverBody pfx cfg).flatMap (fun e =>
    match e with
    | .watchTasks g tasks => if globValueMatches g eventPath then tasks else []
    | _ => [])

/-- An action a reloadable-watch callback performs. -/
inductive ReloadAction where
  | logMsg (msg : String)
  | execSync (cmd : String)
  | spawnGulp (args : List String)
deriving DecidableEq

/-- How a reloadable-watch callback ends. -/
inductive ReloadOutcome where
  | noAction
  | thrown (cmd : String)
  | exited (code : Int)
  | awaitingSpawn (args : List String)
deriving DecidableEq

/-- The `reloadable('package.json', ...)` callback
(`gulp-begin.js:271-288`): it first checks
`event.path.indexOf(file) === -1` and returns silently on a non-matching
path; otherwise it logs, runs `npm install` then `npm prune`
synchronously — `cp.execSync` throws when the child exits non-zero,
aborting the rest of the callback — and exits the process with code 0.
`exitCodes` gives each shell command's exit status. -/
def packageJsonCallback (exitCodes : String → Int) (eventPath : String) :
    List ReloadAction × ReloadOutcome :=
  if !(strHasSub eventPath "package.json") then ([], .noAction)
  else
    let t0 := [ReloadAction.logMsg "package.json changed, installing packages...",
               ReloadAction.execSync "npm install"]
    if exitCodes "npm install" != 0 then (t0, .thrown "npm install")
    else
      let t1 := t0 ++ [ReloadAction.execSync "npm prune"]
      if exitCodes "npm prune" != 0 then (t1, .thrown "npm prune")
      else (t1, .exited 0)

/-- A pipeline stage of a task body. -/
inductive PipeStep where
  | delSync (patterns : List String)
  | src (patterns : List String)
  | htmlmin (collapseWhitespace : Bool)
  | dest (dir : String)
deriving DecidableEq

/-- The html task body of `gulp-begin.js:377-381`: read the markup
sources, minify with `collapseWhitespace`, write to
`options.client.dest`.  No deletion happens — the `del` import at the top
of the file is commented out. -/
def htmlTaskSteps (srcHtml : List String) (clientDest : String) :
    List PipeStep :=
  [.src srcHtml, .htmlmin true, .dest clientDest]

/-- The html task body of the older revision
(`src/unnamed/part_000:182-187`): `del.sync(files.src.html)` — the
SOURCE patterns — runs first, then the same minify-and-write pipeline. -/
def htmlTaskStepsOld (srcHtml : List String) (clientDest : String) :
    List PipeStep :=
  .delSync srcHtml :: htmlTaskSteps srcHtml clientDest

/-- Is a step a deletion? -/
def isDelStep : PipeStep → Bool
  | .delSync _ => true
  | _ => false

/-- `'' + options.port` and similar JS string coercions (array and object
coercion to element-join and `[object Object]` is not fully modelled; no
value in scope is one). -/
def jsToString : JsValue → String
  | .undefined => "undefined"
  | .null => "null"
  | .bool b => if b then "true" else "false"
  | .num n => toString n
  | .str s => s
  | .arr _ => ""
  | .obj _ => "[object Object]"

/-- Drop the longest common leading run of two segment lists. -/
def dropCommon : List String → List String → List String × List String
  | a :: as2, b :: bs => if a = b then dropCommon as2 bs else (a :: as2, b :: bs)
  | as2, bs => (as2, bs)

/-- Node `path.relative(from, to)` on already-comparable paths (the
resolution of both arguments against the process directory is not
modelled: both are relative to it in the source's one call site). -/
def pathRelative (f t : String) : String :=
  let p := dropCommon (splitSegs f) (splitSegs t)
  String.intercalate "/" (p.1.map (fun _ => "..") ++ p.2)

/-- The live-reload notification payload for a changed artifact
(`gulp-begin.js:319-328`): the file list holds the event path relative
to `'' + options.port`. -/
def livereloadChangedFiles (cfg : ServerConfig) (eventPath : String) :
    List String :=
  [pathRelative (jsToString cfg.port) eventPath]

/-- The ports passed to `livereload.listen` during one run of the
supervisor body. -/
def listenPorts (pfx : Option String) (cfg : ServerConfig) : List Nat :=
  (serverBody pfx cfg).filterMap (fun e =>
    match e with
    | .livereloadListen p => some p
    | _ => none)

/-- Does a field list carry the key? -/
def keyMem (fs : List (String × JsValue)) (k : String) : Bool :=
  fs.any (fun f => f.1 == k)

/-! ## Lemmas about the deep merge -/

theorem mergeEntries_eq_map (fs ds : List (String × JsValue)) :
    mergeEntries fs ds =
      fs.map (fun kv => (kv.1, mergeV kv.2 (lookupF ds kv.1))) := by
  induction fs with
  | nil => rfl
  | cons kv rest ih => cases kv; simp [mergeEntries, ih]

theorem lookupF_of_mem (fs : List (String × JsValue)) (k : String)
    (v : JsValue) (hnd : keysNodup fs = true) (hm : (k, v) ∈ fs) :
    lookupF fs k = v := by
  induction fs with
  | nil => cases hm
  | cons kv rest ih =>
    cases kv with
    | mk k0 v0 =>
      rw [keysNodup, Bool.and_eq_true, Bool.not_eq_true'] at hnd
      obtain ⟨h1, h2⟩ := hnd
      rcases List.mem_cons.mp hm with h | h
      · cases h
        simp [lookupF]
      · have hk : ¬ k0 = k := by
          intro he
          subst he
          have : rest.any (fun f => f.1 == k0) = true :=
            List.any_eq_true.mpr ⟨(k0, v), h, by simp⟩
          rw [this] at h1
          cases h1
        simp [lookupF, hk, ih h2 h]

theorem selfFilter_nil (fs : List (String × JsValue)) :
    fs.filter (fun kv => !(fs.any (fun f => f.1 == kv.1))) = [] := by
  rw [List.filter_eq_nil_iff]
  intro kv hm
  simp only [Bool.not_eq_true', Bool.not_eq_false]
  exact List.any_eq_true.mpr ⟨kv, hm, by simp⟩

theorem mergeEntries_pointwise (fs ds : List (String × JsValue))
    (h : ∀ kv ∈ fs, mergeV kv.2 (lookupF ds kv.1) = kv.2) :
    mergeEntries fs ds = fs := by
  induction fs with
  | nil => rfl
  | cons kv rest ih =>
    cases kv with
    | mk k v =>
      have h1 := h (k, v) (List.mem_cons_self _ _)
      simp only [mergeEntries, h1]
      exact congrArg (List.cons (k, v))
        (ih fun x hx => h x (List.mem_cons_of_mem _ hx))

theorem sizeOf_lookupF_le (ds : List (String × JsValue)) (k : String) :
    sizeOf (lookupF ds k) ≤ sizeOf ds := by
  induction ds with
  | nil => simp [lookupF]
  | cons kv rest ih =>
    cases kv with
    | mk k0 v =>
      by_cases h : k0 = k
      · simp only [lookupF, h, if_pos]
        simp only [List.cons.sizeOf_spec, Prod.mk.sizeOf_spec]
        omega
      · simp only [lookupF, h, if_neg, not_false_iff]
        simp only [List.cons.sizeOf_spec, Prod.mk.sizeOf_spec]
        omega

theorem sizeOf_value_lt (fs : List (String × JsValue)) (k : String)
    (v : JsValue) (hm : (k, v) ∈ fs) : sizeOf v < sizeOf fs := by
  have h := List.sizeOf_lt_of_mem hm
  simp only [Prod.mk.sizeOf_spec] at h
  omega

theorem nodupF_value (fs : List (String × JsValue)) (k : String) (v : JsValue)
    (hnd : nodupF fs = true) (hm : (k, v) ∈ fs) : nodupV v = true := by
  induction fs with
  | nil => cases hm
  | cons kv rest ih =>
    cases kv with
    | mk k0 v0 =>
      rw [nodupF, Bool.and_eq_true] at hnd
      rcases List.mem_cons.mp hm with h | h
      · cases h
        exact hnd.1
      · exact ih hnd.2 h

theorem nodupV_lookupF (ds : List (String × JsValue)) (k : String)
    (hnd : nodupF ds = true) : nodupV (lookupF ds k) = true := by
  induction ds with
  | nil => rfl
  | cons kv rest ih =>
    cases kv with
    | mk k0 v =>
      rw [nodupF, Bool.and_eq_true] at hnd
      by_cases h : k0 = k
      · simp only [lookupF, h, if_pos]
        exact hnd.1
      · simp only [lookupF, h, if_neg, not_false_iff]
        exact ih hnd.2

theorem nodupL_elem (xs : List JsValue) (x : JsValue)
    (hnd : nodupL xs = true) (hm : x ∈ xs) : nodupV x = true := by
  induction xs with
  | nil => cases hm
  | cons y rest ih =>
    rw [nodupL, Bool.and_eq_true] at hnd
    rcases List.mem_cons.mp hm with h | h
    · cases h
      exact hnd.1
    · exact ih hnd.2 h

theorem merge_self_le (n : Nat) :
    ∀ v : JsValue, sizeOf v ≤ n → nodupV v = true → mergeV v v = v := by
  induction n with
  | zero =>
    intro v hv _
    exfalso
    cases v <;> simp at hv
  | succ n ih =>
    intro v hv hnd
    cases v with
    | undefined => rfl
    | null => rfl
    | bool b => rfl
    | num m => rfl
    | str s => rfl
    | arr xs =>
      rw [nodupV] at hnd
      simp only [JsValue.arr.sizeOf_spec] at hv
      have aux : ∀ ys : List JsValue, sizeOf ys ≤ n + 1 →
          nodupL ys = true → mergeL ys ys = ys := by
        intro ys
        induction ys with
        | nil => intro _ _; rfl
        | cons y rest ihy =>
          intro hs hd
          rw [nodupL, Bool.and_eq_true] at hd
          simp only [List.cons.sizeOf_spec] at hs
          have h1 : sizeOf y ≤ n := by omega
          have h2 : sizeOf rest ≤ n + 1 := by omega
          rw [mergeL, ih y h1 hd.1, ihy h2 hd.2]
      exact congrArg JsValue.arr (aux xs (by omega) hnd)
    | obj fs =>
      rw [nodupV, Bool.and_eq_true] at hnd
      obtain ⟨hk, hf⟩ := hnd
      simp only [JsValue.obj.sizeOf_spec] at hv
      rw [mergeV, selfFilter_nil, List.append_nil]
      refine congrArg JsValue.obj (mergeEntries_pointwise fs fs ?_)
      intro kv hm
      rw [lookupF_of_mem fs kv.1 kv.2 hk hm]
      have hsz : sizeOf kv.2 ≤ n := by
        have := sizeOf_value_lt fs kv.1 kv.2 hm
        omega
      exact ih kv.2 hsz (nodupF_value fs kv.1 kv.2 hf hm)

theorem mergeV_self (v : JsValue) (hnd : nodupV v = true) : mergeV v v = v :=
  merge_self_le (sizeOf v) v le_rfl hnd

theorem mergeL_self (xs : List JsValue) (hnd : nodupL xs = true) :
    mergeL xs xs = xs := by
  induction xs with
  | nil => rfl
  | cons x rest ih =>
    rw [nodupL, Bool.and_eq_true] at hnd
    rw [mergeL, mergeV_self x hnd.1, ih hnd.2]

theorem merge_idem_le (n : Nat) :
    ∀ u d : JsValue, sizeOf u + sizeOf d ≤ n → nodupV d = true →
      mergeV (mergeV u d) d = mergeV u d := by
  induction n with
  | zero =>
    intro u d h _
    exfalso
    cases u <;> simp at h
  | succ n ih =>
    intro u d hsz hnd
    cases u with
    | undefined =>
      show mergeV (mergeV .undefined d) d = mergeV .undefined d
      rw [show mergeV .undefined d = d from rfl]
      exact mergeV_self d hnd
    | null => cases d <;> rfl
    | bool b => cases d <;> rfl
    | num m => cases d <;> rfl
    | str s => cases d <;> rfl
    | arr xs =>
      cases d with
      | arr ds =>
        rw [nodupV] at hnd
        simp only [JsValue.arr.sizeOf_spec] at hsz
        have aux : ∀ as2 bs : List JsValue,
            sizeOf as2 + sizeOf bs ≤ n + 1 → nodupL bs = true →
            mergeL (mergeL as2 bs) bs = mergeL as2 bs := by
          intro as2
          induction as2 with
          | nil =>
            intro bs _ hd
            rw [show mergeL [] bs = bs from rfl]
            exact mergeL_self bs hd
          | cons a rest iha =>
            intro bs hs hd
            cases bs with
            | nil => rfl
            | cons b bs2 =>
              rw [nodupL, Bool.and_eq_true] at hd
              simp only [List.cons.sizeOf_spec] at hs
              have h1 : sizeOf a + sizeOf b ≤ n := by omega
              have h2 : sizeOf rest + sizeOf bs2 ≤ n + 1 := by omega
              show mergeV (mergeV a b) b :: mergeL (mergeL rest bs2) bs2 =
                mergeV a b :: mergeL rest bs2
              rw [ih a b h1 hd.1, iha bs2 h2 hd.2]
        simp only [mergeV]
        rw [aux xs ds (by omega) hnd]
      | undefined => rfl
      | null => rfl
      | bool b => rfl
      | num m => rfl
      | str s => rfl
      | obj ds => rfl
    | obj fs =>
      cases d with
      | obj ds =>
        rw [nodupV, Bool.and_eq_true] at hnd
        obtain ⟨hk, hf⟩ := hnd
        simp only [JsValue.obj.sizeOf_spec] at hsz
        simp only [mergeV, JsValue.obj.injEq]
        have hcover : ∀ kv ∈ ds,
            ((mergeEntries fs ds ++
              ds.filter (fun kv => !(fs.any (fun f => f.1 == kv.1)))).any
                (fun f => f.1 == kv.1)) = true := by
          intro kv hm
          rw [List.any_append, Bool.or_eq_true]
          by_cases hin : fs.any (fun f => f.1 == kv.1) = true
          · left
            rw [mergeEntries_eq_map, List.any_map]
            exact hin
          · right
            refine List.any_eq_true.mpr ⟨kv, List.mem_filter.mpr ⟨hm, ?_⟩, by simp⟩
            simp only [Bool.not_eq_true] at hin
            simp [hin]
        have hfilter : ds.filter (fun kv =>
            !((mergeEntries fs ds ++
              ds.filter (fun kv => !(fs.any (fun f => f.1 == kv.1)))).any
                (fun f => f.1 == kv.1))) = [] := by
          refine List.filter_eq_nil_iff.mpr ?_
          intro kv hm
          simp [hcover kv hm]
        rw [hfilter, List.append_nil]
        refine mergeEntries_pointwise _ ds ?_
        intro kv hm
        rcases List.mem_append.mp hm with hm1 | hm2
        · rw [mergeEntries_eq_map] at hm1
          obtain ⟨⟨k, v⟩, hmem, hkv⟩ := List.mem_map.mp hm1
          rw [← hkv]
          have hs1 : sizeOf v < sizeOf fs := sizeOf_value_lt fs k v hmem
          have hs2 : sizeOf (lookupF ds k) ≤ sizeOf ds := sizeOf_lookupF_le ds k
          exact ih v (lookupF ds k) (by omega) (nodupV_lookupF ds k hf)
        · obtain ⟨k, v⟩ := kv
          have hmd := List.mem_filter.mp hm2
          have hl : lookupF ds k = v := lookupF_of_mem ds k v hk hmd.1
          show mergeV v (lookupF ds k) = v
          rw [hl]
          exact mergeV_self v (nodupF_value ds k v hf hmd.1)
      | undefined => rfl
      | null => rfl
      | bool b => rfl
      | num m => rfl
      | str s => rfl
      | arr ds => rfl

theorem mergeV_idem (u d : JsValue) (hnd : nodupV d = true) :
    mergeV (mergeV u d) d = mergeV u d :=
  merge_idem_le (sizeOf u + sizeOf d) u d le_rfl hnd

theorem lookupF_append (as2 bs : List (String × JsValue)) (k : String) :
    lookupF (as2 ++ bs) k =
      if keyMem as2 k then lookupF as2 k else lookupF bs k := by
  induction as2 with
  | nil => simp [keyMem, lookupF]
  | cons kv rest ih =>
    cases kv with
    | mk k0 v =>
      by_cases h : k0 = k
      · simp [keyMem, lookupF, h]
      · simp only [List.cons_append, lookupF, if_neg h, ih]
        have : keyMem ((k0, v) :: rest) k = keyMem rest k := by
          simp [keyMem, h]
        rw [this]
        exact ih

theorem keyMem_mergeEntries (fs ds : List (String × JsValue)) (k : String) :
    keyMem (mergeEntries fs ds) k = keyMem fs k := by
  rw [mergeEntries_eq_map]
  simp [keyMem, List.any_map]
  rfl

theorem lookupF_mergeEntries (fs ds : List (String × JsValue)) (k : String)
    (hin : keyMem fs k = true) :
    lookupF (mergeEntries fs ds) k = mergeV (lookupF fs k) (lookupF ds k) := by
  induction fs with
  | nil => simp [keyMem] at hin
  | cons kv rest ih =>
    cases kv with
    | mk k0 v =>
      by_cases h : k0 = k
      · subst h
        simp [mergeEntries, lookupF]
      · have hin2 : keyMem rest k = true := by
          simpa [keyMem, h] using hin
        simp only [mergeEntries, lookupF, if_neg h, ih hin2]

theorem lookupF_filter (ds : List (String × JsValue)) (k : String)
    (p : String × JsValue → Bool)
    (hp : ∀ kv ∈ ds, kv.1 = k → p kv = true) :
    lookupF (ds.filter p) k = lookupF ds k := by
  induction ds with
  | nil => rfl
  | cons kv rest ih =>
    cases kv with
    | mk k0 v =>
      by_cases h : k0 = k
      · subst h
        have : p (k0, v) = true := hp (k0, v) (List.mem_cons_self _ _) rfl
        simp [List.filter_cons, this, lookupF]
      · have ih2 := ih (fun kv hm he => hp kv (List.mem_cons_of_mem _ hm) he)
        by_cases hpv : p (k0, v) = true
        · simp [List.filter_cons, hpv, lookupF, h, ih2]
        · simp only [Bool.not_eq_true] at hpv
          simp [List.filter_cons, hpv, lookupF, h, ih2]

theorem lookupF_mergeV (fs ds : List (String × JsValue)) (k : String) :
    lookupF (mergeEntries fs ds ++
        ds.filter (fun kv => !(fs.any (fun f => f.1 == kv.1)))) k =
      mergeV (lookupF fs k) (lookupF ds k) := by
  rw [lookupF_append, keyMem_mergeEntries]
  by_cases hin : keyMem fs k = true
  · rw [if_pos hin, lookupF_mergeEntries fs ds k hin]
  · rw [if_neg hin]
    have hfs : lookupF fs k = .undefined := by
      induction fs with
      | nil => rfl
      | cons kv rest ih =>
        cases kv with
        | mk k0 v =>
          by_cases h : k0 = k
          · exfalso
            apply hin
            simp [keyMem, h]
          · have : keyMem rest k ≠ true := by
              intro hr
              apply hin
              simp only [keyMem, List.any_cons, Bool.or_eq_true]
              right
              exact hr
            simp only [lookupF, if_neg h]
            exact ih this
    rw [hfs]
    have hp : ∀ kv ∈ ds, kv.1 = k →
        (fun kv => !(fs.any (fun f => f.1 == kv.1))) kv = true := by
      intro kv _ he
      simp only [Bool.not_eq_true']
      rw [he]
      by_contra hc
      apply hin
      simp only [Bool.not_eq_false] at hc
      simpa [keyMem] using hc
    rw [lookupF_filter ds k _ hp]
    cases lookupF ds k <;> rfl

theorem getP_mergeV (p : List String) :
    ∀ u d : JsValue, objAlong u p = true → getP u p = .undefined →
      getP (mergeV u d) p = getP d p := by
  induction p with
  | nil =>
    intro u d _ hu
    have h : u = .undefined := hu
    subst h
    rfl
  | cons k p ih =>
    intro u d halong hu
    cases u with
    | undefined => rfl
    | null => exact Bool.noConfusion halong
    | bool b => exact Bool.noConfusion halong
    | num m => exact Bool.noConfusion halong
    | str s => exact Bool.noConfusion halong
    | arr xs => exact Bool.noConfusion halong
    | obj fs =>
      cases d with
      | obj ds =>
        have h1 : getP (mergeV (.obj fs) (.obj ds)) (k :: p) =
            getP (mergeV (lookupF fs k) (lookupF ds k)) p := by
          simp only [mergeV, getP]
          rw [lookupF_mergeV]
        rw [h1]
        have halong2 : objAlong (lookupF fs k) p = true := halong
        have hu2 : getP (lookupF fs k) p = .undefined := hu
        rw [ih (lookupF fs k) (lookupF ds k) halong2 hu2]
        rfl
      | undefined => exact hu
      | null => exact hu
      | bool b => exact hu
      | num m => exact hu
      | str s => exact hu
      | arr ds => exact hu

theorem cwdOfUser_mergeObj (fs ds gserv : List (String × JsValue))
    (hserv : lookupF ds "server" = .obj gserv)
    (hcwd : lookupF gserv "cwd" = .str "src/server") :
    cwdOfUser (mergeV (.obj fs) (.obj ds)) = cwdOfUser (.obj fs) := by
  have hY := lookupF_mergeV fs ds "server"
  rw [hserv] at hY
  cases hus : lookupF fs "server" with
  | undefined =>
    rw [hus] at hY
    simp only [cwdOfUser, get2, mergeV, hY, hcwd, hus]
  | obj gs =>
    rw [hus] at hY
    have hY2 := lookupF_mergeV gs gserv "cwd"
    rw [hcwd] at hY2
    cases hw : lookupF gs "cwd" with
    | undefined =>
      rw [hw] at hY2
      simp only [cwdOfUser, get2, mergeV, hY, hY2, hcwd, hus, hw]
    | null =>
      rw [hw] at hY2
      simp only [cwdOfUser, get2, mergeV, hY, hY2, hcwd, hus, hw]
    | bool b =>
      rw [hw] at hY2
      simp only [cwdOfUser, get2, mergeV, hY, hY2, hcwd, hus, hw]
    | num m =>
      rw [hw] at hY2
      simp only [cwdOfUser, get2, mergeV, hY, hY2, hcwd, hus, hw]
    | str t =>
      rw [hw] at hY2
      simp only [cwdOfUser, get2, mergeV, hY, hY2, hcwd, hus, hw]
    | arr xs =>
      rw [hw] at hY2
      simp only [cwdOfUser, get2, mergeV, hY, hY2, hcwd, hus, hw]
    | obj hs =>
      rw [hw] at hY2
      simp only [cwdOfUser, get2, mergeV, hY, hY2, hcwd, hus, hw]
  | null =>
    rw [hus] at hY
    simp only [cwdOfUser, get2, mergeV, hY, hus]
  | bool b =>
    rw [hus] at hY
    simp only [cwdOfUser, get2, mergeV, hY, hus]
  | num m =>
    rw [hus] at hY
    simp only [cwdOfUser, get2, mergeV, hY, hus]
  | str t =>
    rw [hus] at hY
    simp only [cwdOfUser, get2, mergeV, hY, hus]
  | arr xs =>
    rw [hus] at hY
    simp only [cwdOfUser, get2, mergeV, hY, hus]

theorem toObjectLike_isObjectLike (v : JsValue) :
    (toObjectLike v).isObjectLike = true := by
  cases v <;> rfl

theorem toObjectLike_of_objLike (v : JsValue) (h : v.isObjectLike = true) :
    toObjectLike v = v := by
  unfold toObjectLike
  rw [h]
  rfl

theorem isObjectLike_mergeV_obj (a : JsValue)
    (ha : a.isObjectLike = true) (ds : List (String × JsValue)) :
    (mergeV a (.obj ds)).isObjectLike = true := by
  cases a with
  | arr xs => rfl
  | obj fs => rfl
  | undefined => exact Bool.noConfusion ha
  | null => exact Bool.noConfusion ha
  | bool b => exact Bool.noConfusion ha
  | num m => exact Bool.noConfusion ha
  | str s => exact Bool.noConfusion ha

theorem nodupV_defaultsFor (s : String) (env : Option String) (cw : String) :
    nodupV (defaultsFor s env cw) = true := by
  cases env <;> rfl

theorem cwdOfUser_stable (u : JsValue) (s : String) (env : Option String)
    (cw : String) :
    cwdOfUser (mergeV (toObjectLike u) (defaultsFor s env cw)) = cwdOfUser u := by
  cases u with
  | obj fs => exact cwdOfUser_mergeObj fs _ _ rfl rfl
  | undefined => rfl
  | null => rfl
  | bool b => rfl
  | num m => rfl
  | str t => rfl
  | arr xs => rfl

theorem resolveOptions_idem (env : Option String) (cw : String)
    (u y : JsValue) (h : resolveOptions env cw u = .ok y) :
    resolveOptions env cw y = .ok y := by
  unfold resolveOptions at h
  cases hc : cwdOfUser u with
  | str s =>
    rw [hc] at h
    have hy : mergeV (toObjectLike u) (defaultsFor s env cw) = y := by
      injection h
    have hcy : cwdOfUser y = .str s := by
      rw [← hy, cwdOfUser_stable, hc]
    have hyobj : y.isObjectLike = true := by
      rw [← hy]
      exact isObjectLike_mergeV_obj _ (toObjectLike_isObjectLike u) _
    unfold resolveOptions
    rw [hcy]
    show Except.ok (mergeV (toObjectLike y) (defaultsFor s env cw)) =
      Except.ok y
    rw [toObjectLike_of_objLike y hyobj]
    rw [← hy, mergeV_idem _ _ (nodupV_defaultsFor s env cw)]
  | undefined => rw [hc] at h; exact Except.noConfusion h
  | null => rw [hc] at h; exact Except.noConfusion h
  | bool b => rw [hc] at h; exact Except.noConfusion h
  | num m => rw [hc] at h; exact Except.noConfusion h
  | arr xs => rw [hc] at h; exact Except.noConfusion h
  | obj fs => rw [hc] at h; exact Except.noConfusion h

theorem mergeV_undefined_right (v : JsValue) : mergeV v .undefined = v := by
  cases v <;> rfl

theorem mergeL_length (us : List JsValue) :
    ∀ ds : List JsValue, (mergeL us ds).length = max us.length ds.length := by
  induction us with
  | nil => intro ds; simp [mergeL]
  | cons x xs ih =>
    intro ds
    cases ds with
    | nil => simp [mergeL]
    | cons d ds2 =>
      show (mergeV x d :: mergeL xs ds2).length = _
      simp [ih ds2]
      omega

theorem mergeL_getD (us : List JsValue) :
    ∀ (ds : List JsValue) (i : Nat),
      (mergeL us ds).getD i .undefined =
        mergeV (us.getD i .undefined) (ds.getD i .undefined) := by
  induction us with
  | nil =>
    intro ds i
    show ds.getD i .undefined = mergeV .undefined (ds.getD i .undefined)
    rfl
  | cons x xs ih =>
    intro ds i
    cases ds with
    | nil =>
      show (x :: xs).getD i .undefined =
        mergeV ((x :: xs).getD i .undefined) .undefined
      rw [mergeV_undefined_right]
    | cons d ds2 =>
      cases i with
      | zero => rfl
      | succ j =>
        show (mergeL xs ds2).getD j .undefined = _
        exact ih ds2 j

/-! ## The claims -/

/-- C1: the exclusion set is computed once at registration time: it is
the `exclude` list whenever `exclude` is supplied (even as an empty
array, and regardless of `only`); otherwise, when `only` is supplied, it
is the list of all default task names minus the images of the `only`
entries under the prefix function; otherwise it is empty. -/
theorem c1_exclusion_precedence (p : Option String) (w : Bool) :
    (∀ (e : List String) (onl : Option (List String)),
      excludedTasks ⟨p, some e, onl, w⟩ = e) ∧
    (∀ (onl : List String) (n : String),
      n ∈ excludedTasks ⟨p, none, some onl, w⟩ ↔
        (n ∈ (defaultTasksList p).map Prod.fst ∧
          (onl.map (qualify p)).contains n = false)) ∧
    excludedTasks ⟨p, none, none, w⟩ = [] ∧
    (∀ onl : List String, excludedTasks ⟨p, none, some onl, w⟩ =
      ((defaultTasksList p).map Prod.fst).filter
        (fun n => !((onl.map (qualify p)).contains n))) := by
  refine ⟨fun e onl => rfl, fun onl n => ?_, rfl, fun onl => rfl⟩
  show n ∈ ((defaultTasksList p).map Prod.fst).filter
    (fun n => !((onl.map (qualify p)).contains n)) ↔ _
  rw [List.mem_filter]
  simp [Bool.not_eq_true']

/-- C2 counterexample: with `exclude=['html']` and `warnExclusions`
falsy, nothing at all is registered under `html` (the claim says a task
is installed regardless of `warnExclusions`); and with prefix `p`,
`exclude=['html']` and `warnExclusions` truthy, the descriptor
registered as `p_html` keeps its REAL body — an exclusion entry holding
the unprefixed base name does not match (the claim says it would). -/
theorem c2_counterexample :
    (registeredNames ⟨none, some ["html"], none, false⟩).contains "html" =
      false ∧
    lookupReg (registerAll ⟨some "p", some ["html"], none, true⟩) "p_html" =
      some (.real (.body .html)) := ⟨rfl, rfl⟩

/-- C2 amended: a descriptor whose name as registered (the
already-prefixed `defaultTasks` key) or that name's image under a second
prefix application is in the exclusion set is registered as the warning
stub only when `warnExclusions` is truthy — invoking the stub never
throws, never reaches a real body, and emits exactly one warning naming
the task per invocation; when `warnExclusions` is falsy, nothing is
registered under the name at all. -/
theorem c2_amended (o : BeginOptions) (tn : String) (arg : TaskArg)
    (hexcl : ((excludedTasks o).contains tn ||
      (excludedTasks o).contains (qualify o.pfx tn)) = true) :
    (o.warnExclusions = true →
      taskHelper o tn arg = [(tn, .stub tn)] ∧
      invokeStub tn = .ok [stubWarning tn] ∧
      stubWarning tn = "Task <" ++ tn ++ "> has been explicity excluded!" ∧
      (invokeStub tn).isOk = true ∧
      (∀ a : TaskArg, Registered.stub tn ≠ .real a)) ∧
    (o.warnExclusions = false → taskHelper o tn arg = []) := by
  constructor
  · intro hw
    refine ⟨?_, rfl, rfl, rfl, fun a h => Registered.noConfusion h⟩
    unfold taskHelper
    rw [hexcl, hw]
    rfl
  · intro hw
    unfold taskHelper
    rw [hexcl, hw]
    rfl

/-- C2 witness: the amended statement at `exclude=['html']`,
`warnExclusions=true`, no prefix, for the `html` descriptor. -/
theorem c2_amended_witness :
    taskHelper ⟨none, some ["html"], none, true⟩ "html" (.body .html) =
      [("html", .stub "html")] :=
  ((c2_amended ⟨none, some ["html"], none, true⟩ "html" (.body .html)
    (by decide)).1 rfl).1

/-- C3 counterexample: resolving a configuration that supplies
`client.scripts.src = ['a.js']` yields `['a.js', '*/**/*.js']` — the
second default entry survives because lodash `defaultsDeep` merges
arrays index-wise — not the claimed wholesale replacement `['a.js']`. -/
theorem c3_counterexample :
    asStrList (getP (callerObjectAfter none "/proj"
      (.obj [("client", .obj [("scripts", .obj [("src",
        .arr [.str "a.js"])])])]))
      ["client", "scripts", "src"]) = some ["a.js", "*/**/*.js"] ∧
    ((["a.js", "*/**/*.js"] : List String) == ["a.js"]) = false :=
  ⟨rfl, by decide⟩

/-- C3 amended: for array-valued keys the caller's array is merged
index-wise over the default array, never replacing it wholesale: the
merged array is as long as the longer of the two, every position holds
the defaults-merge of the caller's and the default's element at that
position (the caller's defined element wins, a missing or `undefined`
caller element is filled from the default), and in particular supplying
`client.scripts.src=['a.js']` resolves to `['a.js', '*/**/*.js']`. -/
theorem c3_amended (us ds : List JsValue) :
    mergeV (.arr us) (.arr ds) = .arr (mergeL us ds) ∧
    (mergeL us ds).length = max us.length ds.length ∧
    (∀ i : Nat, (mergeL us ds).getD i .undefined =
      mergeV (us.getD i .undefined) (ds.getD i .undefined)) ∧
    asStrList (getP (callerObjectAfter none "/proj"
      (.obj [("client", .obj [("scripts", .obj [("src",
        .arr [.str "a.js"])])])]))
      ["client", "scripts", "src"]) = some ["a.js", "*/**/*.js"] :=
  ⟨rfl, mergeL_length us ds, mergeL_getD us ds, rfl⟩

/-- C4: the styles watch binding is broken by a missing comma — the
source reads `gulp.watch(_.flatten([...])[name('styles')])`, so the
flattened pattern array is member-accessed with the string `styles`
(yielding `undefined`) and no task list is passed.  Consequently a
file-change event NEVER triggers the styles task: zero invocations for
every event path, in particular for a change to the default styles
source `src/client/styles/styles.scss`, where the claim demands exactly
one. -/
theorem c4_styles_watch_broken :
    (serverBody none defaultServerConfig).get? 2 =
      some (.watchTasks .undefined []) ∧
    (∀ eventPath : String,
      (triggeredTasks none defaultServerConfig eventPath).count "styles" = 0) ∧
    triggeredTasks none defaultServerConfig "src/client/styles/styles.scss" =
      [] := by
  refine ⟨rfl, ?_, rfl⟩
  intro p
  show ((if globValueMatches (strArr _) p then ["html"] else []) ++
    ((if globValueMatches (strArr _) p then ["scripts"] else []) ++
    ((if globValueMatches .undefined p then [] else []) ++
    ((if globValueMatches (strArr _) p then ["images"] else []) ++
    [])))).count "styles" = 0
  split <;> split <;> split <;> split <;> rfl

/-- C5: when the `package.json` watch callback fires on a matching event
path it performs, in order, the log line, a synchronous `npm install`, a
synchronous `npm prune`, and then exits the process with code 0; no
rebuild (gulp spawn) action ever appears in the trace; and when
`npm install` exits non-zero the `execSync` throw aborts the rest of the
chain — no prune action and no code-0 exit. -/
theorem c5_package_json_chain (exitCodes : String → Int) (p : String)
    (hp : strHasSub p "package.json" = true) :
    (exitCodes "npm install" = 0 → exitCodes "npm prune" = 0 →
      packageJsonCallback exitCodes p =
        ([.logMsg "package.json changed, installing packages...",
          .execSync "npm install", .execSync "npm prune"], .exited 0)) ∧
    (∀ code : Int, exitCodes "npm install" = code → code ≠ 0 →
      packageJsonCallback exitCodes p =
        ([.logMsg "package.json changed, installing packages...",
          .execSync "npm install"], .thrown "npm install") ∧
      ((packageJsonCallback exitCodes p).1.count
        (ReloadAction.execSync "npm prune")) = 0 ∧
      (packageJsonCallback exitCodes p).2 ≠ .exited 0) ∧
    (∀ args : List String,
      ((packageJsonCallback exitCodes p).1.count
        (ReloadAction.spawnGulp args)) = 0) := by
  refine ⟨?_, ?_, ?_⟩
  · intro h1 h2
    unfold packageJsonCallback
    rw [hp]
    simp [h1, h2]
  · intro code hcode hne
    subst hcode
    have hb : (exitCodes "npm install" != 0) = true := by
      simpa using hne
    have key : packageJsonCallback exitCodes p =
        ([.logMsg "package.json changed, installing packages...",
          .execSync "npm install"], .thrown "npm install") := by
      unfold packageJsonCallback
      rw [hp]
      rw [if_neg (by decide : ¬((!true) = true))]
      rw [if_pos hb]
    refine ⟨key, ?_, ?_⟩
    · rw [key]
      rfl
    · rw [key]
      intro h
      exact ReloadOutcome.noConfusion h
  · intro args
    unfold packageJsonCallback
    rw [hp]
    rw [if_neg (by decide : ¬((!true) = true))]
    by_cases h1 : (exitCodes "npm install" != 0) = true
    · rw [if_pos h1]
      simp [List.count_cons]
    · rw [if_neg h1]
      by_cases h2 : (exitCodes "npm prune" != 0) = true
      · rw [if_pos h2]
        simp [List.count_cons]
      · rw [if_neg h2]
        simp [List.count_cons]

/-- C5 witness: the chain at a concrete matching path with both commands
succeeding, and the abort at a failing `npm install`. -/
theorem c5_package_json_chain_witness :
    packageJsonCallback (fun _ => 0) "/proj/package.json" =
      ([.logMsg "package.json changed, installing packages...",
        .execSync "npm install", .execSync "npm prune"], .exited 0) ∧
    packageJsonCallback (fun c => if c = "npm install" then 1 else 0)
      "/proj/package.json" =
      ([.logMsg "package.json changed, installing packages...",
        .execSync "npm install"], .thrown "npm install") :=
  ⟨(c5_package_json_chain (fun _ => 0) "/proj/package.json" rfl).1 rfl rfl,
   ((c5_package_json_chain (fun c => if c = "npm install" then 1 else 0)
     "/proj/package.json" rfl).2.1 1 rfl (by decide)).1⟩

/-- C6: with a prefix set the autotest body's watch binding triggers the
literal, unprefixed task name `test` (`gulp.watch(..., ['test'])` at
`gulp-begin.js:481`), which is NOT among the registered names — they are
all prefixed (`p_test` is registered, `test` is not), so the trigger
dangles, contradicting the invariant the claim states. -/
theorem c6_autotest_dangling :
    autotestWatchTriggers = ["test"] ∧
    (registeredNames ⟨some "p", none, none, false⟩).contains "test" = false ∧
    registeredNames ⟨some "p", none, none, false⟩ =
      ["p_html", "p_jshint", "p_scripts", "p_styles", "p_images", "p_build",
       "p_server", "p_demon", "p_dev", "p_test", "p_autotest", "p_docs",
       "p_changelog"] ∧
    (registeredNames ⟨some "p", none, none, false⟩).contains
      (qualify (some "p") "test") = true := ⟨rfl, rfl, rfl, rfl⟩

/-- C7 counterexample: resolution mutates the caller's object — after
resolving an empty options object the caller's object holds the
five-field resolved configuration instead of the empty object it held
before — and resolution can raise: a numeric `server.cwd` makes the
`path.join` in the defaults literal throw. -/
theorem c7_counterexample :
    countRootFields (callerObjectAfter none "/proj" (.obj [])) = 5 ∧
    countRootFields (JsValue.obj []) = 0 ∧
    resolveOptions none "/proj"
      (.obj [("server", .obj [("cwd", .num 8081)])]) =
      .error "path.join: Path must be a string" := ⟨rfl, rfl, rfl⟩

/-- C7 amended: configuration resolution computes the deep-merged value
but is not side-effect free — lodash `defaultsDeep` mutates its first
argument, so an object-like `userOptions` holds the resolved
configuration after the call (a non-structured argument is itself left
untouched and resolved as an empty object); resolution raises precisely
when the effective `server.cwd` read from the caller's options is
defined and not a string; and no default leaf is dropped: wherever the
caller's options read `undefined` along a default path (passing only
through objects), the resolved configuration carries the defaults
tree's value at that path. -/
theorem c7_amended (env : Option String) (cw : String) :
    (∀ u : JsValue, u.isObjectLike = false →
      resolveOptions env cw u =
        .ok (mergeV (.obj []) (defaultsFor "src/server" env cw)) ∧
      callerObjectAfter env cw u = u) ∧
    (∀ u y : JsValue, resolveOptions env cw u = .ok y →
      u.isObjectLike = true → callerObjectAfter env cw u = y) ∧
    (∀ u : JsValue, (∃ s, cwdOfUser u = .str s) ↔
      ∃ y, resolveOptions env cw u = .ok y) ∧
    (∀ (u y : JsValue) (p : List String) (s : String),
      cwdOfUser u = .str s →
      resolveOptions env cw u = .ok y →
      objAlong (toObjectLike u) p = true →
      getP (toObjectLike u) p = .undefined →
      getP y p = getP (defaultsFor s env cw) p) := by
  refine ⟨?_, ?_, ?_, ?_⟩
  · intro u h
    cases u with
    | undefined => exact ⟨rfl, rfl⟩
    | null => exact ⟨rfl, rfl⟩
    | bool b => exact ⟨rfl, rfl⟩
    | num m => exact ⟨rfl, rfl⟩
    | str s => exact ⟨rfl, rfl⟩
    | arr xs => exact Bool.noConfusion h
    | obj fs => exact Bool.noConfusion h
  · intro u y hok hobj
    unfold callerObjectAfter
    rw [hok]
    show (if u.isObjectLike then y else u) = y
    rw [hobj]
    rfl
  · intro u
    constructor
    · rintro ⟨s, hs⟩
      unfold resolveOptions
      rw [hs]
      exact ⟨_, rfl⟩
    · rintro ⟨y, hy⟩
      unfold resolveOptions at hy
      cases h : cwdOfUser u
      case str s => exact ⟨s, rfl⟩
      all_goals rw [h] at hy
      all_goals exact Except.noConfusion hy
  · intro u y p s hs hok halong hu
    have hy : mergeV (toObjectLike u) (defaultsFor s env cw) = y := by
      unfold resolveOptions at hok
      rw [hs] at hok
      injection hok
    rw [← hy]
    exact getP_mergeV p (toObjectLike u) (defaultsFor s env cw) halong hu

/-- C7 witness: a primitive options value is left untouched by the call,
and the default leaf `client.scripts.cwd` survives resolution of an
empty options object. -/
theorem c7_amended_witness :
    callerObjectAfter none "/proj" (.num 5) = .num 5 ∧
    getP (mergeV (.obj []) (defaultsFor "src/server" none "/proj"))
      ["client", "scripts", "cwd"] = .str "scripts" :=
  ⟨((c7_amended none "/proj").1 (.num 5) rfl).2,
   by
    have h := (c7_amended none "/proj").2.2.2 (.obj [])
      (mergeV (.obj []) (defaultsFor "src/server" none "/proj"))
      ["client", "scripts", "cwd"] "src/server" rfl rfl rfl rfl
    rw [h]
    rfl⟩

/-- C8: configuration resolution is idempotent — feeding the result of
resolving any configuration fragment back into resolution returns it
unchanged (and a failed resolution stays the same failure). -/
theorem c8_resolve_idempotent (env : Option String) (cw : String)
    (x : JsValue) :
    (resolveOptions env cw x).bind (resolveOptions env cw) =
      resolveOptions env cw x := by
  cases h : resolveOptions env cw x with
  | error e => rfl
  | ok y =>
    show resolveOptions env cw y = Except.ok y
    exact resolveOptions_idem env cw x y h

/-- C9 counterexample: the markup task body of `gulp-begin.js` contains
no deletion step at all (the `del` import is commented out), and the
older duplicated revision's markup body deletes the markup SOURCE
patterns (`src/client/*.html`), not stale destination output. -/
theorem c9_counterexample :
    ((htmlTaskSteps (buildFiles defaultClientConfig).srcHtml
      defaultClientConfig.dest).any isDelStep) = false ∧
    (htmlTaskStepsOld (buildFiles defaultClientConfig).srcHtml
      defaultClientConfig.dest).head? =
      some (.delSync ["src/client/*.html"]) := ⟨rfl, rfl⟩

/-- C9 amended: the markup task body reads the markup sources, minifies
them with collapsed whitespace and writes the result to the client
destination directory, performing no stale-output deletion and leaving
the sources untouched; the older duplicated revision instead prepends a
`del.sync` of the markup SOURCE patterns to the same pipeline. -/
theorem c9_amended :
    htmlTaskSteps (buildFiles defaultClientConfig).srcHtml
      defaultClientConfig.dest =
      [.src ["src/client/*.html"], .htmlmin true, .dest "public"] ∧
    (∀ (srcHtml : List String) (dest : String),
      ((htmlTaskSteps srcHtml dest).any isDelStep) = false ∧
      htmlTaskStepsOld srcHtml dest =
        .delSync srcHtml :: htmlTaskSteps srcHtml dest) :=
  ⟨rfl, fun _ _ => ⟨rfl, rfl⟩⟩

/-- C10: whenever the supervisor body runs, the live-reload listener is
started on the hard-coded port 35729, for every configuration and
prefix — the configured port never reaches `listen`; the configured port
is used only, coerced to a string, as the reference path against which
the changed artifact's path is made relative in the notification
payload, while the destination watch glob comes from `client.dest`. -/
theorem c10_livereload_port (pfx : Option String) (cfg : ServerConfig)
    (eventPath : String) :
    listenPorts pfx cfg = [35729] ∧
    (serverBody pfx cfg).get? 10 =
      some (.watchCallback (pathJoin cfg.client.dest "**/*")
        .livereloadNotify) ∧
    livereloadChangedFiles cfg eventPath =
      [pathRelative (jsToString cfg.port) eventPath] := ⟨rfl, rfl, rfl⟩
